import Mathlib

/-!
# Verification of the GroqWhisperDemo validation/transcription core

Shallow embedding of `groq_transcribe/transcriber.py` and
`groq_transcribe/utils.py`.  Python floats that only ever undergo division
and comparison are modelled as rationals; Python exceptions are modelled
with `Except`; the side effects of `transcribe` (the multipart POST, the
opened upload handle) are recorded in an explicit trace.  Audio files are
modelled by the observations the code makes of them: filesystem metadata
plus the outcome of each of the three probing libraries (soundfile,
mutagen, wave), each probe being atomic (it either yields its numbers or
raises).
-/

namespace GroqTranscribe

/-- Exact division of two integers as a rational number, modelling the
(true) division the Python code performs on sizes and durations. -/
def ratDiv (a b : ℤ) : ℚ := Rat.divInt a b

/-- Python `str.lower`, modelled character-wise (extension strings are
ASCII, where `Char.toLower` agrees with Python). -/
def str_lower (s : String) : String := String.mk (s.data.map Char.toLower)

/-! ## JSON documents

`json.dumps(_, indent=2)` / `json.loads` from the Python standard library,
modelled over documents whose numbers are integers and whose strings are
well-formed unicode (Lean `Char` excludes lone surrogates, as does any
value produced by `json.loads` from `json.dumps` output). -/

/-- A JSON document: the loosely typed transcription-result mapping. -/
inductive JValue where
  | null
  | bool (b : Bool)
  | num (n : ℤ)
  | str (s : String)
  | arr (items : List JValue)
  | obj (members : List (String × JValue))

/-- Lower-case hexadecimal digit, as produced by Python's `'%04x'`. -/
def toHexDigit (n : ℕ) : Char :=
  if n < 10 then Char.ofNat (48 + n) else Char.ofNat (87 + n)

/-- Four-digit lower-case hex rendering used by `\uXXXX` escapes. -/
def hex4 (n : ℕ) : List Char :=
  [toHexDigit (n / 4096 % 16), toHexDigit (n / 256 % 16),
   toHexDigit (n / 16 % 16), toHexDigit (n % 16)]

/-- `json.dumps` escaping of one character (default `ensure_ascii=True`):
`"` and `\` get two-character escapes, the five named control characters
get theirs, other characters outside `0x20..0x7e` become `\uXXXX`
(a surrogate pair above the BMP), and printable ASCII passes through. -/
def escape_char (c : Char) : List Char :=
  if c.toNat = 34 then ['\\', '\"']
  else if c.toNat = 92 then ['\\', '\\']
  else if c.toNat = 8 then ['\\', 'b']
  else if c.toNat = 9 then ['\\', 't']
  else if c.toNat = 10 then ['\\', 'n']
  else if c.toNat = 12 then ['\\', 'f']
  else if c.toNat = 13 then ['\\', 'r']
  else if 32 ≤ c.toNat ∧ c.toNat ≤ 126 then [c]
  else if c.toNat < 65536 then '\\' :: 'u' :: hex4 c.toNat
  else '\\' :: 'u' :: hex4 (55296 + (c.toNat - 65536) / 1024) ++
       '\\' :: 'u' :: hex4 (56320 + (c.toNat - 65536) % 1024)

/-- Escape every character of a string body. -/
def escape_list : List Char → List Char
  | [] => []
  | c :: cs => escape_char c ++ escape_list cs

/-- A JSON string literal: quote, escaped body, quote. -/
def escape_string (s : String) : List Char :=
  '\"' :: (escape_list s.data ++ ['\"'])

/-- The decimal digit character for `d < 10`. -/
def digit_char (d : ℕ) : Char := Char.ofNat (48 + d)

/-- Decimal rendering of a natural number, most significant digit first. -/
def nat_chars (n : ℕ) : List Char :=
  if _h : n < 10 then [digit_char n]
  else nat_chars (n / 10) ++ [digit_char (n % 10)]
  decreasing_by exact Nat.div_lt_self (by omega) (by omega)

/-- Python `repr` of an integer: optional minus sign, then digits. -/
def int_chars (n : ℤ) : List Char :=
  if n < 0 then '-' :: nat_chars n.natAbs else nat_chars n.toNat

/-- Indentation: `n` spaces. -/
def n_spaces (n : ℕ) : List Char := List.replicate n ' '

mutual

/-- `json.dumps(v, indent=2)` at indentation level `ind`: keywords,
integers, escaped strings, and containers that open, put every element on
its own line indented two further columns, and close on a fresh line. -/
def ser (ind : ℕ) : JValue → List Char
  | .null => ['n', 'u', 'l', 'l']
  | .bool b => if b then ['t', 'r', 'u', 'e'] else ['f', 'a', 'l', 's', 'e']
  | .num n => int_chars n
  | .str s => escape_string s
  | .arr [] => ['[', ']']
  | .arr (v :: vs) =>
      '[' :: '\n' :: (ser_arr_items (ind + 2) v vs ++ '\n' :: (n_spaces ind ++ [']']))
  | .obj [] => [Char.ofNat 123, Char.ofNat 125]
  | .obj (m :: ms) =>
      Char.ofNat 123 :: '\n' ::
        (ser_obj_items (ind + 2) m ms ++ '\n' :: (n_spaces ind ++ [Char.ofNat 125]))
termination_by v => sizeOf v
decreasing_by all_goals (simp_wf; omega)

/-- The comma-and-newline separated elements of a non-empty array. -/
def ser_arr_items (ind : ℕ) (v : JValue) : List JValue → List Char
  | [] => n_spaces ind ++ ser ind v
  | w :: ws => (n_spaces ind ++ ser ind v) ++ ',' :: '\n' :: ser_arr_items ind w ws
termination_by l => sizeOf v + sizeOf l
decreasing_by all_goals (simp_wf; try omega)

/-- The members of a non-empty object, each `"key": value`. -/
def ser_obj_items (ind : ℕ) (m : String × JValue) : List (String × JValue) → List Char
  | [] => n_spaces ind ++ (escape_string m.1 ++ ':' :: ' ' :: ser ind m.2)
  | m2 :: ms =>
      (n_spaces ind ++ (escape_string m.1 ++ ':' :: ' ' :: ser ind m.2)) ++
        ',' :: '\n' :: ser_obj_items ind m2 ms
termination_by l => sizeOf m + sizeOf l
decreasing_by all_goals (obtain ⟨a, b⟩ := m; simp_wf; omega)

end

/-- `json.dumps(v, indent=2)` as a string. -/
def json_dumps (v : JValue) : String := String.mk (ser 0 v)

/-- JSON whitespace (`json.decoder` strips space, tab, newline, CR). -/
def is_ws (c : Char) : Bool :=
  decide (c.toNat = 32 ∨ c.toNat = 9 ∨ c.toNat = 10 ∨ c.toNat = 13)

/-- Drop leading JSON whitespace. -/
def skip_ws : List Char → List Char
  | [] => []
  | c :: cs => if is_ws c then skip_ws cs else c :: cs

/-- Decimal digit test. -/
def is_digit_char (c : Char) : Bool := decide (48 ≤ c.toNat ∧ c.toNat ≤ 57)

/-- Does the input start with a digit?  (Guards greedy number parsing.) -/
def starts_digit : List Char → Bool
  | [] => false
  | c :: _ => is_digit_char c

/-- Value of one hexadecimal digit. -/
def hex_val (c : Char) : Option ℕ :=
  if 48 ≤ c.toNat ∧ c.toNat ≤ 57 then some (c.toNat - 48)
  else if 97 ≤ c.toNat ∧ c.toNat ≤ 102 then some (c.toNat - 87)
  else if 65 ≤ c.toNat ∧ c.toNat ≤ 70 then some (c.toNat - 55)
  else none

/-- Value of a four-digit hexadecimal escape payload. -/
def hex4_val (h1 h2 h3 h4 : Char) : Option ℕ :=
  match hex_val h1, hex_val h2, hex_val h3, hex_val h4 with
  | some a, some b, some c, some d => some (4096 * a + 256 * b + 16 * c + d)
  | _, _, _, _ => none

/-- The single-character escapes accepted after a backslash. -/
def unescape_simple (e : Char) : Option Char :=
  if e.toNat = 34 then some '\"'
  else if e.toNat = 92 then some '\\'
  else if e.toNat = 47 then some '/'
  else if e = 'b' then some (Char.ofNat 8)
  else if e = 'f' then some (Char.ofNat 12)
  else if e = 'n' then some '\n'
  else if e = 'r' then some (Char.ofNat 13)
  else if e = 't' then some '\t'
  else none

/-- Decode one character of a string body: a plain character, a
single-character escape, a `\uXXXX` escape, or a surrogate pair.  The
closing quote is handled by the caller. -/
def next_char : List Char → Option (Char × List Char)
  | [] => none
  | c :: cs =>
    if c.toNat = 92 then
      match cs with
      | [] => none
      | e :: cs2 =>
        if e = 'u' then
          match cs2 with
          | h1 :: h2 :: h3 :: h4 :: cs3 =>
            match hex4_val h1 h2 h3 h4 with
            | none => none
            | some n =>
              if n < 55296 ∨ 57344 ≤ n then some (Char.ofNat n, cs3)
              else if n < 56320 then
                match cs3 with
                | b1 :: u2 :: g1 :: g2 :: g3 :: g4 :: cs4 =>
                  if b1.toNat = 92 ∧ u2 = 'u' then
                    match hex4_val g1 g2 g3 g4 with
                    | none => none
                    | some m =>
                      if 56320 ≤ m ∧ m < 57344 then
                        some (Char.ofNat (65536 + (n - 55296) * 1024 + (m - 56320)), cs4)
                      else none
                  else none
                | _ => none
              else none
          | _ => none
        else
          match unescape_simple e with
          | some d => some (d, cs2)
          | none => none
    else some (c, cs)

/-- Read a string body up to the closing quote, decoding escapes
(`json.loads` string scanning, restricted to well-formed surrogate
pairing, which is all the serializer emits).  The fuel bounds the number
of decoded characters; each step consumes at least one input character,
so the input length always suffices. -/
def parse_string_body : ℕ → List Char → Option (List Char × List Char)
  | 0, _ => none
  | fuel + 1, cs =>
    match cs with
    | [] => none
    | c :: cs1 =>
      if c.toNat = 34 then some ([], cs1)
      else
        (next_char (c :: cs1)).bind fun dr =>
          (parse_string_body fuel dr.2).map fun p => (dr.1 :: p.1, p.2)

/-- Longest leading run of decimal digits. -/
def take_digits : List Char → List Char × List Char
  | [] => ([], [])
  | c :: cs =>
    if is_digit_char c then
      let p := take_digits cs
      (c :: p.1, p.2)
    else ([], c :: cs)

/-- Accumulate the value of a digit run. -/
def digits_val (acc : ℕ) : List Char → ℕ
  | [] => acc
  | c :: cs => digits_val (10 * acc + (c.toNat - 48)) cs

/-- Greedy decimal number scan (integral part; the documents modelled here
carry integer numbers only). -/
def parse_nat (cs : List Char) : Option (ℕ × List Char) :=
  match take_digits cs with
  | ([], _) => none
  | (ds, rest) => some (digits_val 0 ds, rest)

mutual

/-- Fuel-indexed recursive-descent JSON value parser, modelling the
`json.loads` grammar over the documents of `JValue`: leading whitespace,
then a keyword, number, string, array or object. -/
def parse_value : ℕ → List Char → Option (JValue × List Char)
  | 0, _ => none
  | fuel + 1, cs =>
    match skip_ws cs with
    | [] => none
    | c :: cs1 =>
      if c = 'n' then
        match cs1 with
        | 'u' :: 'l' :: 'l' :: rest => some (.null, rest)
        | _ => none
      else if c = 't' then
        match cs1 with
        | 'r' :: 'u' :: 'e' :: rest => some (.bool true, rest)
        | _ => none
      else if c = 'f' then
        match cs1 with
        | 'a' :: 'l' :: 's' :: 'e' :: rest => some (.bool false, rest)
        | _ => none
      else if c.toNat = 34 then
        (parse_string_body cs1.length cs1).map fun p => (.str (String.mk p.1), p.2)
      else if c = '-' then
        (parse_nat cs1).map fun p => (.num (-(p.1 : ℤ)), p.2)
      else if is_digit_char c then
        (parse_nat (c :: cs1)).map fun p => (.num (p.1 : ℤ), p.2)
      else if c = '[' then
        match skip_ws cs1 with
        | c2 :: cs2 =>
          if c2 = ']' then some (.arr [], cs2)
          else (parse_arr_items fuel cs1).map fun p => (.arr p.1, p.2)
        | [] => none
      else if c.toNat = 123 then
        match skip_ws cs1 with
        | c2 :: cs2 =>
          if c2.toNat = 125 then some (.obj [], cs2)
          else (parse_obj_items fuel cs1).map fun p => (.obj p.1, p.2)
        | [] => none
      else none

/-- Elements of a non-empty array: a value, then either a comma and more
elements or the closing bracket. -/
def parse_arr_items : ℕ → List Char → Option (List JValue × List Char)
  | 0, _ => none
  | fuel + 1, cs =>
    (parse_value fuel cs).bind fun vp =>
      match skip_ws vp.2 with
      | c :: rest2 =>
        if c = ',' then
          (parse_arr_items fuel rest2).map fun q => (vp.1 :: q.1, q.2)
        else if c = ']' then some ([vp.1], rest2)
        else none
      | [] => none

/-- Members of a non-empty object: a quoted key, a colon, a value, then
either a comma and more members or the closing brace. -/
def parse_obj_items : ℕ → List Char → Option (List (String × JValue) × List Char)
  | 0, _ => none
  | fuel + 1, cs =>
    match skip_ws cs with
    | c :: cs1 =>
      if c.toNat = 34 then
        (parse_string_body cs1.length cs1).bind fun kp =>
          match skip_ws kp.2 with
          | c2 :: rest2 =>
            if c2 = ':' then
              (parse_value fuel rest2).bind fun vp =>
                match skip_ws vp.2 with
                | c3 :: rest4 =>
                  if c3 = ',' then
                    (parse_obj_items fuel rest4).map fun q =>
                      ((String.mk kp.1, vp.1) :: q.1, q.2)
                  else if c3.toNat = 125 then some ([(String.mk kp.1, vp.1)], rest4)
                  else none
                | [] => none
            else none
          | [] => none
      else none
    | [] => none

end

/-- `json.loads`: parse one value (the input length bounds the recursion
depth actually used) and require only whitespace to remain. -/
def json_loads (s : String) : Option JValue :=
  match parse_value (s.data.length + 1) s.data with
  | some (v, rest) => if skip_ws rest = [] then some v else none
  | none => none

mutual

/-- Fuel sufficient for `parse_value` on the serialization of `v`. -/
def cost : JValue → ℕ
  | .null => 1
  | .bool _ => 1
  | .num _ => 1
  | .str _ => 1
  | .arr [] => 1
  | .arr (v :: vs) => 1 + cost_arr v vs
  | .obj [] => 1
  | .obj (m :: ms) => 1 + cost_obj m ms
termination_by v => sizeOf v
decreasing_by all_goals (simp_wf; try omega)

/-- Fuel sufficient for `parse_arr_items` on serialized elements. -/
def cost_arr (v : JValue) : List JValue → ℕ
  | [] => 1 + cost v
  | w :: ws => 1 + cost v + cost_arr w ws
termination_by l => sizeOf v + sizeOf l
decreasing_by all_goals (simp_wf; try omega)

/-- Fuel sufficient for `parse_obj_items` on serialized members. -/
def cost_obj (m : String × JValue) : List (String × JValue) → ℕ
  | [] => 1 + cost m.2
  | m2 :: ms => 1 + cost m.2 + cost_obj m2 ms
termination_by l => sizeOf m + sizeOf l
decreasing_by all_goals (obtain ⟨a, b⟩ := m; simp_wf; try omega)

end

/-- Round-trip statement for one value: with enough fuel, parsing the
serialization (at any indentation, before any non-digit-leading suffix)
returns the value and the untouched suffix. -/
def PVal (v : JValue) : Prop :=
  ∀ fuel ind rest, cost v ≤ fuel → starts_digit rest = false →
    parse_value fuel (ser ind v ++ rest) = some (v, rest)

/-- Round-trip statement for non-empty array elements, between arbitrary
whitespace runs and before the closing bracket. -/
def PArr (v : JValue) (vs : List JValue) : Prop :=
  ∀ fuel ind ws1 ws2 rest, cost_arr v vs ≤ fuel →
    (∀ c ∈ ws1, is_ws c = true) → (∀ c ∈ ws2, is_ws c = true) →
    parse_arr_items fuel (ws1 ++ (ser_arr_items ind v vs ++ (ws2 ++ ']' :: rest)))
      = some (v :: vs, rest)

/-- Round-trip statement for non-empty object members, between arbitrary
whitespace runs and before the closing brace. -/
def PObj (m : String × JValue) (ms : List (String × JValue)) : Prop :=
  ∀ fuel ind ws1 ws2 rest, cost_obj m ms ≤ fuel →
    (∀ c ∈ ws1, is_ws c = true) → (∀ c ∈ ws2, is_ws c = true) →
    parse_obj_items fuel (ws1 ++ (ser_obj_items ind m ms ++ (ws2 ++ Char.ofNat 125 :: rest)))
      = some (m :: ms, rest)

/-! ## Audio file model

An audio file as observed by the code: `os.path` metadata and the outcome
of each probing library.  For soundfile a zero reported sample rate makes
the duration division raise `ZeroDivisionError` before any assignment into
the `audio_details` dictionary, so that probe contributes nothing; the
wave branch, by contrast, assigns `channels` and `sample_rate` into the
dictionary before its duration division, so a zero frame rate leaves those
two assignments behind when the exception is caught. -/

/-- What `soundfile.SoundFile` reports when it opens the file. -/
structure SfData where
  frames : ℕ
  samplerate : ℕ
  channels : ℕ
deriving DecidableEq

/-- What `mutagen.File` does: raise, return an object without an `info`
attribute, or return tag info (whose channel/sample-rate attributes may be
absent, `getattr` defaults then apply). -/
inductive MutagenOutcome where
  | raised
  | noInfo
  | withInfo (length : ℚ) (channels : Option ℕ) (sample_rate : Option ℕ)
deriving DecidableEq

/-- What `wave.open` reports for a WAV file. -/
structure WavData where
  nframes : ℕ
  framerate : ℕ
  nchannels : ℕ
deriving DecidableEq

/-- A local file as the validation code can observe it. -/
structure AudioFileModel where
  path_exists : Bool
  raw_ext : String
  size_bytes : ℕ
  sf_file : Option SfData
  mutagen_file : MutagenOutcome
  wav_file : Option WavData
deriving DecidableEq

/-- The numbers one successful probe contributes. -/
structure ProbeResult where
  duration : ℚ
  channels : ℕ
  sample_rate : ℕ
deriving DecidableEq

/-- The `audio_details` dictionary. -/
structure AudioDetails where
  duration : ℚ
  channels : ℕ
  sample_rate : ℕ
  file_size_mb : ℚ
deriving DecidableEq

/-- How the probing cascade left the function: `returned` when one of the
guarded blocks reached its `return audio_details`, `fellThrough` when
control reached the code after the wave branch; either way the dictionary
travels along with every assignment made into it so far. -/
inductive ProbeFlow where
  | returned (d : AudioDetails)
  | fellThrough (d : AudioDetails)
deriving DecidableEq

/-- Method 1: `sf.SoundFile`; duration is `len(audio_file) / samplerate`. -/
def sf_probe (f : AudioFileModel) : Option ProbeResult :=
  match f.sf_file with
  | none => none
  | some d =>
      if d.samplerate = 0 then none
      else some ⟨ratDiv d.frames d.samplerate, d.channels, d.samplerate⟩

/-- Method 2: `mutagen.File`, used only when the object has `info`;
`getattr` supplies defaults 1 and 0 for missing channel/sample-rate. -/
def mutagen_probe (f : AudioFileModel) : Option ProbeResult :=
  match f.mutagen_file with
  | .raised => none
  | .noInfo => none
  | .withInfo len ch sr => some ⟨len, ch.getD 1, sr.getD 0⟩

/-- Method 3: the `wave` module, attempted only for a `.wav` extension.
The source assigns `audio_details['channels'] = getnchannels()` and
`audio_details['sample_rate'] = getframerate()` before computing
`getnframes() / getframerate()`: when `wave.open` itself raises the
dictionary is untouched, but when the frame rate is zero the two
assignments have already executed when the `ZeroDivisionError` is caught,
and the mutated dictionary falls through to the code after the branch. -/
def wave_probe (f : AudioFileModel) (file_ext : String)
    (audio_details : AudioDetails) : ProbeFlow :=
  if file_ext = ".wav" then
    match f.wav_file with
    | none => .fellThrough audio_details
    | some d =>
        let details := { audio_details with
                         channels := d.nchannels
                         sample_rate := d.framerate }
        if d.framerate = 0 then .fellThrough details
        else .returned { details with duration := ratDiv d.nframes d.framerate }
  else .fellThrough audio_details

/-- The probing cascade in the fixed priority order soundfile, mutagen,
wave, threading the `audio_details` dictionary through the attempts: a
successful soundfile or mutagen probe overwrites duration, channels and
sample rate and returns; otherwise the wave branch decides how the
function exits and what the dictionary holds. -/
def probe_details (f : AudioFileModel) (file_ext : String)
    (audio_details : AudioDetails) : ProbeFlow :=
  match sf_probe f with
  | some r => .returned { audio_details with
      duration := r.duration
      channels := r.channels
      sample_rate := r.sample_rate }
  | none =>
      match mutagen_probe f with
      | some r => .returned { audio_details with
          duration := r.duration
          channels := r.channels
          sample_rate := r.sample_rate }
      | none => wave_probe f file_ext audio_details

/-- Equality of `Except` results is decidable when both sides are. -/
def exceptDecEq {ε α : Type} [DecidableEq ε] [DecidableEq α] :
    DecidableEq (Except ε α)
  | .error e, .error e' =>
      if h : e = e' then isTrue (by rw [h]) else isFalse (by simp [h])
  | .error _, .ok _ => isFalse (by simp)
  | .ok _, .error _ => isFalse (by simp)
  | .ok a, .ok b =>
      if h : a = b then isTrue (by rw [h]) else isFalse (by simp [h])

instance {ε α : Type} [DecidableEq ε] [DecidableEq α] : DecidableEq (Except ε α) :=
  exceptDecEq

/-- The error taxonomy; each constructor carries the data its Python
message interpolates. -/
inductive TranscribeError where
  | fileNotFound (path : String)
  | unsupportedExtension (ext : String)
  | fileTooLarge (limit_mb : ℚ) (size_mb : ℚ)
  | fileTooShort (min_seconds : ℚ) (duration : ℚ)
  | unsupportedFormat (fmt : String)
  | apiError (status_code : ℕ) (body : String)
  | networkError
  | jsonDecodeError
deriving DecidableEq

/-- `GroqTranscriber.SUPPORTED_EXTENSIONS`. -/
def SUPPORTED_EXTENSIONS : List String :=
  [".mp3", ".mp4", ".mpeg", ".mpga", ".m4a", ".wav", ".webm"]

/-- `GroqTranscriber.SUPPORTED_FORMATS`. -/
def SUPPORTED_FORMATS : List String := ["json", "verbose_json", "text"]

/-- `GroqTranscriber.MAX_FILE_SIZE_MB`. -/
def MAX_FILE_SIZE_MB : ℚ := 25

/-- `GroqTranscriber.MIN_FILE_LENGTH_SECONDS` (and the default
`min_file_length_seconds=0.01` of `utils.validate_audio_file`). -/
def MIN_FILE_LENGTH_SECONDS : ℚ := ratDiv 1 100

namespace Transcriber

/-- `GroqTranscriber._get_audio_details`: existence check, lower-cased
extension allow-list, size limit computed from `os.path.getsize`, then the
probing cascade over the dictionary initialised to duration 0, channels 1,
sample rate 0; whether a probe returned or control fell through to the
final `return audio_details`, the dictionary as mutated so far comes back
as a non-error outcome. -/
def get_audio_details (f : AudioFileModel) (audio_path : String) :
    Except TranscribeError AudioDetails :=
  if f.path_exists = false then .error (.fileNotFound audio_path)
  else
    let file_ext := str_lower f.raw_ext
    if file_ext ∉ SUPPORTED_EXTENSIONS then .error (.unsupportedExtension file_ext)
    else
      let file_size_mb : ℚ := ratDiv f.size_bytes (1024 * 1024)
      if file_size_mb > MAX_FILE_SIZE_MB then
        .error (.fileTooLarge MAX_FILE_SIZE_MB file_size_mb)
      else
        match probe_details f file_ext ⟨0, 1, 0, file_size_mb⟩ with
        | .returned d => .ok d
        | .fellThrough d => .ok d

/-- `GroqTranscriber._validate_audio_file`: fetch the details, then reject
any duration below `MIN_FILE_LENGTH_SECONDS`.  (The billing and
multi-channel messages are advisory prints and do not alter control flow;
the Python method returns `None`.) -/
def validate_audio_file (f : AudioFileModel) (audio_path : String) :
    Except TranscribeError Unit :=
  match get_audio_details f audio_path with
  | .error e => .error e
  | .ok audio_details =>
      if audio_details.duration < MIN_FILE_LENGTH_SECONDS then
        .error (.fileTooShort MIN_FILE_LENGTH_SECONDS audio_details.duration)
      else .ok ()

/-- The multipart POST `transcribe` sends: URL, form fields, file part. -/
structure ApiRequest where
  url : String
  model : String
  response_format : String
  language : Option String
  file_path : String
deriving DecidableEq

/-- Constructor-time configuration of `GroqTranscriber`. -/
structure Config where
  api_key : String
  model : String
  base_url : String
deriving DecidableEq

/-- How the one `requests.post` call behaves: a transport-level exception,
or a response with a status code, a text body, and a body that either
parses as JSON or does not. -/
inductive NetBehavior where
  | requestException
  | response (status_code : ℕ) (body_json : Option JValue) (text : String)

/-- The observable side effects of one `transcribe` call. -/
structure TranscribeTrace where
  network_request : Option ApiRequest
  file_opened : Bool
  file_closed : Bool

/-- `GroqTranscriber.transcribe`: re-validate the file, check the response
format, open the file and send the multipart request inside
`try ... finally files["file"][1].close()`; non-200 statuses raise with
the status and body, transport and JSON-decoding exceptions propagate, and
the `finally` closes the handle on every one of those paths. -/
def transcribe (cfg : Config) (f : AudioFileModel) (audio_path : String)
    (response_format : String) (language : Option String) (net : NetBehavior) :
    Except TranscribeError JValue × TranscribeTrace :=
  match validate_audio_file f audio_path with
  | .error e => (.error e, ⟨none, false, false⟩)
  | .ok _ =>
      if response_format ∉ SUPPORTED_FORMATS then
        (.error (.unsupportedFormat response_format), ⟨none, false, false⟩)
      else
        let req : ApiRequest := ⟨cfg.base_url, cfg.model, response_format, language, audio_path⟩
        let outcome : Except TranscribeError JValue :=
          match net with
          | .requestException => .error .networkError
          | .response status body_json text =>
              if status ≠ 200 then .error (.apiError status text)
              else
                match body_json with
                | none => .error .jsonDecodeError
                | some j => .ok j
        (outcome, ⟨some req, true, true⟩)

end Transcriber

namespace Utils

/-- `utils.validate_audio_file`: the same existence, extension and size
checks and the same probing cascade over the same initial dictionary, but
the minimum-length comparison sits after the wave branch, so it runs only
when every probe has failed and control fell through (where
`audio_details['duration']` is still the initial 0, though channels and
sample rate may carry a partial wave mutation). -/
def validate_audio_file (f : AudioFileModel) (audio_path : String)
    (max_file_size_mb : ℚ) (min_file_length_seconds : ℚ)
    (supported_extensions : Option (List String)) :
    Except TranscribeError AudioDetails :=
  let supported := supported_extensions.getD SUPPORTED_EXTENSIONS
  if f.path_exists = false then .error (.fileNotFound audio_path)
  else
    let file_ext := str_lower f.raw_ext
    if file_ext ∉ supported then .error (.unsupportedExtension file_ext)
    else
      let file_size_mb : ℚ := ratDiv f.size_bytes (1024 * 1024)
      if file_size_mb > max_file_size_mb then
        .error (.fileTooLarge max_file_size_mb file_size_mb)
      else
        match probe_details f file_ext ⟨0, 1, 0, file_size_mb⟩ with
        | .returned d => .ok d
        | .fellThrough d =>
            if d.duration < min_file_length_seconds then
              .error (.fileTooShort min_file_length_seconds d.duration)
            else .ok d

/-- `utils.export_transcription`: `json` pretty-prints the document,
`text` takes `transcription.get('text', '')`, anything else raises before
the optional file write; the second component records the writes
performed. -/
def export_transcription (transcription : List (String × JValue))
    (output_format : String) (output_path : Option String) :
    Except TranscribeError JValue × List (String × JValue) :=
  let content : Except TranscribeError JValue :=
    if output_format = "json" then
      .ok (.str (json_dumps (.obj transcription)))
    else if output_format = "text" then
      .ok ((transcription.lookup "text").getD (.str ""))
    else .error (.unsupportedFormat output_format)
  match content with
  | .error e => (.error e, [])
  | .ok c =>
      match output_path with
      | some p => (.ok c, [(p, c)])
      | none => (.ok c, [])

end Utils

/-! ## Concrete files used to witness the claims -/

/-- A valid 1 MiB mp3 whose soundfile probe reports one second of mono
audio at 44100 Hz. -/
def sampleFile : AudioFileModel :=
  { path_exists := true, raw_ext := ".mp3", size_bytes := 1048576,
    sf_file := some ⟨44100, 44100, 1⟩, mutagen_file := .raised, wav_file := none }

/-- An existing file with a disallowed extension. -/
def badExtFile : AudioFileModel :=
  { path_exists := true, raw_ext := ".txt", size_bytes := 5,
    sf_file := none, mutagen_file := .raised, wav_file := none }

/-- An existing 30 MiB mp3. -/
def bigFile : AudioFileModel :=
  { path_exists := true, raw_ext := ".mp3", size_bytes := 31457280,
    sf_file := some ⟨441000, 44100, 2⟩, mutagen_file := .raised, wav_file := none }

/-- An existing small mp3 on which every probing strategy fails. -/
def deadProbeFile : AudioFileModel :=
  { path_exists := true, raw_ext := ".mp3", size_bytes := 4096,
    sf_file := none, mutagen_file := .noInfo, wav_file := some ⟨800, 16000, 1⟩ }

/-- An existing small mp3 whose soundfile probe succeeds with 220 frames
at 44100 Hz: a probed duration of about 0.005 seconds, below the 0.01
minimum. -/
def shortProbeFile : AudioFileModel :=
  { path_exists := true, raw_ext := ".mp3", size_bytes := 16000,
    sf_file := some ⟨220, 44100, 1⟩, mutagen_file := .raised, wav_file := none }

/-- An existing small `.wav` file rejected by soundfile and mutagen that
`wave.open` accepts with a zero frame rate and two channels: the wave
branch assigns channels and sample rate into the dictionary and only then
raises `ZeroDivisionError` at the duration division. -/
def zeroRateWavFile : AudioFileModel :=
  { path_exists := true, raw_ext := ".wav", size_bytes := 2048,
    sf_file := none, mutagen_file := .raised, wav_file := some ⟨100, 0, 2⟩ }

/-- A path with no file behind it. -/
def missingFile : AudioFileModel :=
  { path_exists := false, raw_ext := ".mp3", size_bytes := 0,
    sf_file := none, mutagen_file := .raised, wav_file := none }

/-- A transcriber configuration. -/
def sampleCfg : Transcriber.Config :=
  { api_key := "gsk_test", model := "whisper-large-v3",
    base_url := "https://api.groq.com/openai/v1/audio/transcriptions" }

/-- A 200 response whose body parses as an empty JSON object. -/
def okNet : Transcriber.NetBehavior := .response 200 (some (.obj [])) ""

/-! ## Lemmas for the JSON round trip -/

theorem skip_ws_cons_not_ws {c : Char} (cs : List Char) (h : is_ws c = false) :
    skip_ws (c :: cs) = c :: cs := by
  simp [skip_ws, h]

theorem skip_ws_cons_ws {c : Char} (cs : List Char) (h : is_ws c = true) :
    skip_ws (c :: cs) = skip_ws cs := by
  simp [skip_ws, h]

theorem skip_ws_append (ws cs : List Char) (h : ∀ c ∈ ws, is_ws c = true) :
    skip_ws (ws ++ cs) = skip_ws cs := by
  induction ws with
  | nil => rfl
  | cons c ws ih =>
      rw [List.cons_append, skip_ws, if_pos (h c (by simp))]
      exact ih fun d hd => h d (by simp [hd])

theorem n_spaces_all_ws (n : ℕ) : ∀ c ∈ n_spaces n, is_ws c = true := by
  intro c hc
  rw [n_spaces] at hc
  rw [List.eq_of_mem_replicate hc]
  decide

theorem is_digit_char_iff (c : Char) :
    is_digit_char c = true ↔ 48 ≤ c.toNat ∧ c.toNat ≤ 57 := by
  simp [is_digit_char]

theorem ws_not_digit {c : Char} (h : is_ws c = true) : is_digit_char c = false := by
  simp [is_ws] at h
  simp [is_digit_char]
  omega

theorem starts_digit_ws {ws : List Char} {d : Char} (rest : List Char)
    (hws : ∀ c ∈ ws, is_ws c = true) (hd : is_digit_char d = false) :
    starts_digit (ws ++ d :: rest) = false := by
  cases ws with
  | nil => simpa [starts_digit] using hd
  | cons c cs => simpa [starts_digit] using ws_not_digit (hws c (by simp))

theorem parse_value_ws (fuel : ℕ) (ws cs : List Char) (h : ∀ c ∈ ws, is_ws c = true) :
    parse_value fuel (ws ++ cs) = parse_value fuel cs := by
  cases fuel with
  | zero => rfl
  | succ fuel =>
      simp only [parse_value]
      rw [skip_ws_append ws cs h]

theorem parse_value_ws1 (fuel : ℕ) (c : Char) (cs : List Char) (h : is_ws c = true) :
    parse_value fuel (c :: cs) = parse_value fuel cs := by
  cases fuel with
  | zero => rfl
  | succ fuel =>
      simp only [parse_value]
      rw [skip_ws_cons_ws _ h]

theorem digit_char_toNat (d : ℕ) (h : d < 10) : (digit_char d).toNat = 48 + d := by
  interval_cases d <;> rfl

theorem nat_chars_digits (n : ℕ) : ∀ c ∈ nat_chars n, is_digit_char c = true := by
  induction n using Nat.strong_induction_on with
  | _ n ih =>
      rw [nat_chars]
      split
      · intro c hc
        rw [List.mem_singleton] at hc
        subst hc
        rw [is_digit_char_iff, digit_char_toNat _ (by omega)]
        omega
      · intro c hc
        rw [List.mem_append] at hc
        rcases hc with hc | hc
        · exact ih _ (Nat.div_lt_self (by omega) (by omega)) c hc
        · rw [List.mem_singleton] at hc
          subst hc
          rw [is_digit_char_iff, digit_char_toNat _ (by omega)]
          omega

theorem nat_chars_ne_nil (n : ℕ) : nat_chars n ≠ [] := by
  rw [nat_chars]
  split <;> simp

theorem digits_val_append (xs ys : List Char) (acc : ℕ) :
    digits_val acc (xs ++ ys) = digits_val (digits_val acc xs) ys := by
  induction xs generalizing acc with
  | nil => rfl
  | cons c cs ih =>
      show digits_val (10 * acc + (c.toNat - 48)) (cs ++ ys)
        = digits_val (digits_val (10 * acc + (c.toNat - 48)) cs) ys
      exact ih _

theorem digits_val_nat_chars (n : ℕ) :
    ∀ acc, digits_val acc (nat_chars n) = acc * 10 ^ (nat_chars n).length + n := by
  induction n using Nat.strong_induction_on with
  | _ n ih =>
      intro acc
      rw [nat_chars]
      split
      · have hd : (digit_char n).toNat = 48 + n := digit_char_toNat n (by omega)
        rw [show digits_val acc [digit_char n]
              = 10 * acc + ((digit_char n).toNat - 48) from rfl,
          hd, List.length_singleton, pow_one]
        omega
      · rw [digits_val_append, ih (n / 10) (Nat.div_lt_self (by omega) (by omega))]
        have hd : (digit_char (n % 10)).toNat = 48 + n % 10 :=
          digit_char_toNat _ (by omega)
        rw [show ∀ a, digits_val a [digit_char (n % 10)]
              = 10 * a + ((digit_char (n % 10)).toNat - 48) from fun a => rfl,
          hd, List.length_append, List.length_singleton]
        have hp : acc * 10 ^ ((nat_chars (n / 10)).length + 1)
            = acc * 10 ^ (nat_chars (n / 10)).length * 10 := by
          rw [pow_succ, Nat.mul_assoc]
        rw [hp]
        generalize acc * 10 ^ (nat_chars (n / 10)).length = A
        omega

theorem take_digits_append (ds rest : List Char)
    (h1 : ∀ c ∈ ds, is_digit_char c = true) (h2 : starts_digit rest = false) :
    take_digits (ds ++ rest) = (ds, rest) := by
  induction ds with
  | nil =>
      cases rest with
      | nil => rfl
      | cons c cs =>
          simp only [starts_digit] at h2
          simp [take_digits, h2]
  | cons d ds ih =>
      rw [List.cons_append, take_digits, if_pos (h1 d (by simp)),
        ih fun c hc => h1 c (by simp [hc])]

theorem parse_nat_round (n : ℕ) (rest : List Char) (h : starts_digit rest = false) :
    parse_nat (nat_chars n ++ rest) = some (n, rest) := by
  unfold parse_nat
  rw [take_digits_append _ _ (nat_chars_digits n) h]
  rcases hnc : nat_chars n with _ | ⟨c, cs⟩
  · exact absurd hnc (nat_chars_ne_nil n)
  · show some (digits_val 0 (c :: cs), rest) = some (n, rest)
    rw [← hnc, digits_val_nat_chars n 0]
    simp

theorem hex_val_toHexDigit (d : ℕ) (h : d < 16) : hex_val (toHexDigit d) = some d := by
  interval_cases d <;> decide

theorem hex4_val_hex4 (n : ℕ) (h : n < 65536) :
    hex4_val (toHexDigit (n / 4096 % 16)) (toHexDigit (n / 256 % 16))
      (toHexDigit (n / 16 % 16)) (toHexDigit (n % 16)) = some n := by
  unfold hex4_val
  rw [hex_val_toHexDigit _ (by omega), hex_val_toHexDigit _ (by omega),
    hex_val_toHexDigit _ (by omega), hex_val_toHexDigit _ (by omega)]
  exact congrArg some (by omega)

theorem char_toNat_lt (c : Char) : c.toNat < 1114112 := by
  have hv : c.toNat < 55296 ∨ (57344 ≤ c.toNat ∧ c.toNat < 1114112) := c.valid
  omega

theorem char_not_surrogate (c : Char) : c.toNat < 55296 ∨ 57344 ≤ c.toNat := by
  have hv : c.toNat < 55296 ∨ (57344 ≤ c.toNat ∧ c.toNat < 1114112) := c.valid
  omega

theorem char_toNat_inj {c d : Char} (h : c.toNat = d.toNat) : c = d := by
  rw [← Char.ofNat_toNat c, h, Char.ofNat_toNat]

theorem next_char_plain (c : Char) (T : List Char) (h92 : ¬ c.toNat = 92) :
    next_char (c :: T) = some (c, T) := by
  simp only [next_char]
  rw [if_neg h92]

theorem next_char_u (h1 h2 h3 h4 : Char) (n : ℕ) (T : List Char)
    (hh : hex4_val h1 h2 h3 h4 = some n) (hv : n < 55296 ∨ 57344 ≤ n) :
    next_char ('\\' :: 'u' :: h1 :: h2 :: h3 :: h4 :: T) = some (Char.ofNat n, T) := by
  simp only [next_char]
  rw [hh]
  show (if n < 55296 ∨ 57344 ≤ n then _ else _) = _
  rw [if_pos hv]

theorem next_char_surrogate (h1 h2 h3 h4 g1 g2 g3 g4 : Char) (n m : ℕ) (T : List Char)
    (hh1 : hex4_val h1 h2 h3 h4 = some n) (hn : 55296 ≤ n ∧ n < 56320)
    (hh2 : hex4_val g1 g2 g3 g4 = some m) (hm : 56320 ≤ m ∧ m < 57344) :
    next_char ('\\' :: 'u' :: h1 :: h2 :: h3 :: h4 :: '\\' :: 'u' :: g1 :: g2 :: g3 :: g4 :: T)
      = some (Char.ofNat (65536 + (n - 55296) * 1024 + (m - 56320)), T) := by
  simp only [next_char]
  rw [hh1]
  show (if n < 55296 ∨ 57344 ≤ n then _ else _) = _
  rw [if_neg (by omega), if_pos hn.2,
    if_pos (show ('\\').toNat = 92 ∧ True from ⟨by decide, trivial⟩), hh2]
  show (if 56320 ≤ m ∧ m < 57344 then _ else _) = _
  rw [if_pos hm]

theorem escape_char_shape (c : Char) :
    (escape_char c = [c] ∧ ¬ c.toNat = 34 ∧ ¬ c.toNat = 92) ∨
      ∃ t, escape_char c = '\\' :: t := by
  by_cases h34 : c.toNat = 34
  · exact Or.inr ⟨_, by unfold escape_char; rw [if_pos h34]⟩
  · by_cases h92 : c.toNat = 92
    · exact Or.inr ⟨_, by unfold escape_char; rw [if_neg h34, if_pos h92]⟩
    · by_cases h8 : c.toNat = 8
      · exact Or.inr ⟨_, by unfold escape_char; rw [if_neg h34, if_neg h92, if_pos h8]⟩
      · by_cases h9 : c.toNat = 9
        · exact Or.inr ⟨_, by
            unfold escape_char
            rw [if_neg h34, if_neg h92, if_neg h8, if_pos h9]⟩
        · by_cases h10 : c.toNat = 10
          · exact Or.inr ⟨_, by
              unfold escape_char
              rw [if_neg h34, if_neg h92, if_neg h8, if_neg h9, if_pos h10]⟩
          · by_cases h12 : c.toNat = 12
            · exact Or.inr ⟨_, by
                unfold escape_char
                rw [if_neg h34, if_neg h92, if_neg h8, if_neg h9, if_neg h10, if_pos h12]⟩
            · by_cases h13 : c.toNat = 13
              · exact Or.inr ⟨_, by
                  unfold escape_char
                  rw [if_neg h34, if_neg h92, if_neg h8, if_neg h9, if_neg h10,
                    if_neg h12, if_pos h13]⟩
              · by_cases hpr : 32 ≤ c.toNat ∧ c.toNat ≤ 126
                · refine Or.inl ⟨?_, h34, h92⟩
                  unfold escape_char
                  rw [if_neg h34, if_neg h92, if_neg h8, if_neg h9, if_neg h10,
                    if_neg h12, if_neg h13, if_pos hpr]
                · by_cases hbmp : c.toNat < 65536
                  · exact Or.inr ⟨_, by
                      unfold escape_char
                      rw [if_neg h34, if_neg h92, if_neg h8, if_neg h9, if_neg h10,
                        if_neg h12, if_neg h13, if_neg hpr, if_pos hbmp]⟩
                  · have he : escape_char c
                        = '\\' :: ('u' :: hex4 (55296 + (c.toNat - 65536) / 1024) ++
                          '\\' :: 'u' :: hex4 (56320 + (c.toNat - 65536) % 1024)) := by
                      unfold escape_char
                      rw [if_neg h34, if_neg h92, if_neg h8, if_neg h9, if_neg h10,
                        if_neg h12, if_neg h13, if_neg hpr, if_neg hbmp, List.cons_append]
                    exact Or.inr ⟨_, he⟩

set_option maxRecDepth 2048 in
theorem next_char_escape (c : Char) (T : List Char) :
    next_char (escape_char c ++ T) = some (c, T) := by
  by_cases h34 : c.toNat = 34
  · have hc : c = '\"' := char_toNat_inj (by rw [h34]; rfl)
    subst hc
    rfl
  · by_cases h92 : c.toNat = 92
    · have hc : c = '\\' := char_toNat_inj (by rw [h92]; rfl)
      subst hc
      rfl
    · by_cases h8 : c.toNat = 8
      · have hc : c = Char.ofNat 8 := by rw [← Char.ofNat_toNat c, h8]
        subst hc
        rfl
      · by_cases h9 : c.toNat = 9
        · have hc : c = Char.ofNat 9 := by rw [← Char.ofNat_toNat c, h9]
          subst hc
          rfl
        · by_cases h10 : c.toNat = 10
          · have hc : c = Char.ofNat 10 := by rw [← Char.ofNat_toNat c, h10]
            subst hc
            rfl
          · by_cases h12 : c.toNat = 12
            · have hc : c = Char.ofNat 12 := by rw [← Char.ofNat_toNat c, h12]
              subst hc
              rfl
            · by_cases h13 : c.toNat = 13
              · have hc : c = Char.ofNat 13 := by rw [← Char.ofNat_toNat c, h13]
                subst hc
                rfl
              · by_cases hpr : 32 ≤ c.toNat ∧ c.toNat ≤ 126
                · have he : escape_char c = [c] := by
                    unfold escape_char
                    rw [if_neg h34, if_neg h92, if_neg h8, if_neg h9, if_neg h10,
                      if_neg h12, if_neg h13, if_pos hpr]
                  rw [he, List.cons_append, List.nil_append]
                  exact next_char_plain c T h92
                · by_cases hbmp : c.toNat < 65536
                  · have he : escape_char c = '\\' :: 'u' :: hex4 c.toNat := by
                      unfold escape_char
                      rw [if_neg h34, if_neg h92, if_neg h8, if_neg h9, if_neg h10,
                        if_neg h12, if_neg h13, if_neg hpr, if_pos hbmp]
                    rw [he, hex4]
                    simp only [List.cons_append, List.nil_append]
                    rw [next_char_u _ _ _ _ _ _ (hex4_val_hex4 c.toNat hbmp)
                      (char_not_surrogate c), Char.ofNat_toNat]
                  · have hlt := char_toNat_lt c
                    have he : escape_char c
                        = '\\' :: 'u' :: hex4 (55296 + (c.toNat - 65536) / 1024) ++
                          '\\' :: 'u' :: hex4 (56320 + (c.toNat - 65536) % 1024) := by
                      unfold escape_char
                      rw [if_neg h34, if_neg h92, if_neg h8, if_neg h9, if_neg h10,
                        if_neg h12, if_neg h13, if_neg hpr, if_neg hbmp]
                    rw [he, hex4, hex4]
                    simp only [List.cons_append, List.nil_append, List.append_assoc]
                    rw [next_char_surrogate _ _ _ _ _ _ _ _ _ _ _
                      (hex4_val_hex4 _ (by omega)) (by constructor <;> omega)
                      (hex4_val_hex4 _ (by omega)) (by constructor <;> omega)]
                    have harith : 65536 + (55296 + (c.toNat - 65536) / 1024 - 55296) * 1024 +
                        (56320 + (c.toNat - 65536) % 1024 - 56320) = c.toNat := by
                      omega
                    rw [harith, Char.ofNat_toNat]

theorem psb_round (l rest : List Char) :
    ∀ fuel, l.length + 1 ≤ fuel →
      parse_string_body fuel (escape_list l ++ '\"' :: rest) = some (l, rest) := by
  induction l with
  | nil =>
      intro fuel hf
      obtain ⟨g, rfl⟩ : ∃ g, fuel = g + 1 := ⟨fuel - 1, by omega⟩
      rfl
  | cons c l ih =>
      intro fuel hf
      obtain ⟨g, rfl⟩ : ∃ g, fuel = g + 1 := ⟨fuel - 1, by omega⟩
      have hT := next_char_escape c (escape_list l ++ '\"' :: rest)
      rw [escape_list, List.append_assoc]
      rcases escape_char_shape c with ⟨he, h34, h92⟩ | ⟨t, he⟩
      · rw [he] at hT ⊢
        rw [List.cons_append, List.nil_append] at hT ⊢
        simp only [parse_string_body]
        rw [if_neg h34, hT, Option.some_bind, ih g (by simp at hf; omega)]
        rfl
      · rw [he] at hT ⊢
        rw [List.cons_append] at hT ⊢
        simp only [parse_string_body]
        rw [if_neg (by decide), hT, Option.some_bind, ih g (by simp at hf; omega)]
        rfl

theorem jv_sizeOf_pos (v : JValue) : 1 ≤ sizeOf v := by
  cases v <;> simp

theorem list_sizeOf_pos {α : Type} [SizeOf α] (l : List α) : 1 ≤ sizeOf l := by
  cases l with
  | nil => simp
  | cons a t =>
      simp
      omega

theorem escape_char_length_pos (c : Char) : 1 ≤ (escape_char c).length := by
  rcases escape_char_shape c with ⟨he, _, _⟩ | ⟨t, he⟩ <;> simp [he]

theorem escape_list_length (l : List Char) : l.length ≤ (escape_list l).length := by
  induction l with
  | nil => simp [escape_list]
  | cons c l ih =>
      rw [escape_list, List.length_append, List.length_cons]
      have := escape_char_length_pos c
      omega

theorem nat_chars_cons (n : ℕ) :
    ∃ c t, nat_chars n = c :: t ∧ is_digit_char c = true := by
  rcases h : nat_chars n with _ | ⟨c, t⟩
  · exact absurd h (nat_chars_ne_nil n)
  · exact ⟨c, t, rfl, nat_chars_digits n c (by rw [h]; simp)⟩

theorem ser_shape (ind : ℕ) (v : JValue) :
    ∃ c t, ser ind v = c :: t ∧ is_ws c = false ∧ ¬ c = ']' ∧ ¬ c.toNat = 125 := by
  cases v with
  | null => exact ⟨'n', ['u', 'l', 'l'], by simp [ser], by decide, by decide, by decide⟩
  | bool b =>
      cases b
      · exact ⟨'f', ['a', 'l', 's', 'e'], by simp [ser], by decide, by decide, by decide⟩
      · exact ⟨'t', ['r', 'u', 'e'], by simp [ser], by decide, by decide, by decide⟩
  | num n =>
      by_cases hn : n < 0
      · exact ⟨'-', nat_chars n.natAbs, by simp [ser, int_chars, hn], by decide,
          by decide, by decide⟩
      · obtain ⟨c, t, hct, hd⟩ := nat_chars_cons n.toNat
        have hb := (is_digit_char_iff c).mp hd
        refine ⟨c, t, by simp [ser, int_chars, hn, hct], ?_, ?_, ?_⟩
        · simp [is_ws]
          omega
        · rintro rfl
          revert hb
          decide
        · omega
  | str s =>
      exact ⟨'\"', escape_list s.data ++ ['\"'], by simp [ser, escape_string], by decide,
        by decide, by decide⟩
  | arr l =>
      cases l with
      | nil => exact ⟨'[', [']'], by simp [ser], by decide, by decide, by decide⟩
      | cons v vs =>
          exact ⟨'[', '\n' :: (ser_arr_items (ind + 2) v vs ++ '\n' :: (n_spaces ind ++ [']'])),
            by simp [ser], by decide, by decide, by decide⟩
  | obj l =>
      cases l with
      | nil =>
          exact ⟨Char.ofNat 123, [Char.ofNat 125], by simp [ser], by decide, by decide,
            by decide⟩
      | cons m ms =>
          exact ⟨Char.ofNat 123,
            '\n' :: (ser_obj_items (ind + 2) m ms ++ '\n' :: (n_spaces ind ++ [Char.ofNat 125])),
            by simp [ser], by decide, by decide, by decide⟩

theorem skip_ws_ser (ind : ℕ) (v : JValue) (X : List Char) :
    skip_ws (ser ind v ++ X) = ser ind v ++ X := by
  obtain ⟨c, t, hct, hws, _, _⟩ := ser_shape ind v
  rw [hct, List.cons_append, skip_ws_cons_not_ws _ hws]

theorem ser_arr_items_decomp (ind : ℕ) (v : JValue) (vs : List JValue) :
    ∃ t, ser_arr_items ind v vs = n_spaces ind ++ (ser ind v ++ t) := by
  cases vs with
  | nil => exact ⟨[], by simp [ser_arr_items]⟩
  | cons w ws =>
      exact ⟨',' :: '\n' :: ser_arr_items ind w ws, by simp [ser_arr_items]⟩

theorem ser_obj_items_decomp (ind : ℕ) (m : String × JValue)
    (ms : List (String × JValue)) :
    ∃ t, ser_obj_items ind m ms = n_spaces ind ++ ('\"' :: t) := by
  cases ms with
  | nil =>
      exact ⟨(escape_list m.1.data ++ ['\"']) ++ ':' :: ' ' :: ser ind m.2,
        by simp [ser_obj_items, escape_string]⟩
  | cons m2 ms2 =>
      exact ⟨(escape_list m.1.data ++ ['\"']) ++ ':' :: ' ' :: ser ind m.2 ++
          ',' :: '\n' :: ser_obj_items ind m2 ms2,
        by simp [ser_obj_items, escape_string]⟩

theorem pv_step_minus (g : ℕ) (T : List Char) :
    parse_value (g + 1) ('-' :: T)
      = (parse_nat T).map fun p => (.num (-(p.1 : ℤ)), p.2) := rfl

theorem pv_step_str (g : ℕ) (T : List Char) :
    parse_value (g + 1) ('\"' :: T)
      = (parse_string_body T.length T).map fun p => (.str (String.mk p.1), p.2) := rfl

theorem pv_step_lbracket (g : ℕ) (T : List Char) :
    parse_value (g + 1) ('[' :: T)
      = match skip_ws T with
        | c2 :: cs2 =>
          if c2 = ']' then some (.arr [], cs2)
          else (parse_arr_items g T).map fun p => (.arr p.1, p.2)
        | [] => none := rfl

theorem pv_step_lbrace (g : ℕ) (T : List Char) :
    parse_value (g + 1) (Char.ofNat 123 :: T)
      = match skip_ws T with
        | c2 :: cs2 =>
          if c2.toNat = 125 then some (.obj [], cs2)
          else (parse_obj_items g T).map fun p => (.obj p.1, p.2)
        | [] => none := rfl

theorem pv_step_digit (g : ℕ) (c : Char) (T : List Char) (hd : is_digit_char c = true) :
    parse_value (g + 1) (c :: T)
      = (parse_nat (c :: T)).map fun p => (.num (p.1 : ℤ), p.2) := by
  have hb := (is_digit_char_iff c).mp hd
  have hws : is_ws c = false := by
    simp [is_ws]
    omega
  simp only [parse_value]
  rw [skip_ws_cons_not_ws _ hws]
  show (if c = 'n' then _ else _) = _
  rw [if_neg (show ¬ c = 'n' by rintro rfl; revert hb; decide),
    if_neg (show ¬ c = 't' by rintro rfl; revert hb; decide),
    if_neg (show ¬ c = 'f' by rintro rfl; revert hb; decide),
    if_neg (show ¬ c.toNat = 34 by omega),
    if_neg (show ¬ c = '-' by rintro rfl; revert hb; decide),
    if_pos hd]

theorem parse_num_round (g : ℕ) (n : ℤ) (rest : List Char)
    (hr : starts_digit rest = false) :
    parse_value (g + 1) (int_chars n ++ rest) = some (.num n, rest) := by
  unfold int_chars
  by_cases hn : n < 0
  · rw [if_pos hn, List.cons_append, pv_step_minus g _,
      parse_nat_round n.natAbs rest hr]
    show some (JValue.num (-(n.natAbs : ℤ)), rest) = some (.num n, rest)
    rw [show (-(n.natAbs : ℤ)) = n by omega]
  · rw [if_neg hn]
    obtain ⟨c, t, hct, hd⟩ := nat_chars_cons n.toNat
    rw [hct, List.cons_append, pv_step_digit g c _ hd, ← List.cons_append, ← hct,
      parse_nat_round n.toNat rest hr, Option.map_some']
    show some (JValue.num ((n.toNat : ℕ) : ℤ), rest) = some (.num n, rest)
    rw [show ((n.toNat : ℕ) : ℤ) = n by omega]


theorem round_trip_all : ∀ N : ℕ,
    (∀ v : JValue, sizeOf v ≤ N → PVal v) ∧
    (∀ (v : JValue) (vs : List JValue), sizeOf v + sizeOf vs ≤ N → PArr v vs) ∧
    (∀ (m : String × JValue) (ms : List (String × JValue)),
      sizeOf m + sizeOf ms ≤ N → PObj m ms) := by
  intro N
  induction N with
  | zero =>
      refine ⟨fun v hv => ?_, fun v vs hv => ?_, fun m ms hm => ?_⟩
      · exact absurd hv (by have := jv_sizeOf_pos v; omega)
      · exact absurd hv (by have := jv_sizeOf_pos v; have := list_sizeOf_pos vs; omega)
      · exact absurd hm (by have := list_sizeOf_pos ms; omega)
  | succ N ihN =>
      obtain ⟨ihV, ihA, ihO⟩ := ihN
      refine ⟨?_, ?_, ?_⟩
      · intro v hv
        unfold PVal
        intro fuel ind rest hc hr
        cases v with
        | null =>
            simp [cost] at hc
            obtain ⟨g, rfl⟩ : ∃ g, fuel = g + 1 := ⟨fuel - 1, by omega⟩
            rw [show ser ind JValue.null = ['n', 'u', 'l', 'l'] from by simp [ser]]
            rfl
        | bool b =>
            simp [cost] at hc
            obtain ⟨g, rfl⟩ : ∃ g, fuel = g + 1 := ⟨fuel - 1, by omega⟩
            cases b
            · rw [show ser ind (JValue.bool false) = ['f', 'a', 'l', 's', 'e'] from by
                simp [ser]]
              rfl
            · rw [show ser ind (JValue.bool true) = ['t', 'r', 'u', 'e'] from by simp [ser]]
              rfl
        | num n =>
            simp [cost] at hc
            obtain ⟨g, rfl⟩ : ∃ g, fuel = g + 1 := ⟨fuel - 1, by omega⟩
            rw [show ser ind (JValue.num n) = int_chars n from by simp [ser]]
            exact parse_num_round g n rest hr
        | str s =>
            simp [cost] at hc
            obtain ⟨g, rfl⟩ : ∃ g, fuel = g + 1 := ⟨fuel - 1, by omega⟩
            have hser : ser ind (JValue.str s) ++ rest
                = '\"' :: (escape_list s.data ++ ('\"' :: rest)) := by
              simp [ser, escape_string]
            rw [hser, pv_step_str g _]
            have hlen : s.data.length + 1 ≤ (escape_list s.data ++ ('\"' :: rest)).length := by
              rw [List.length_append, List.length_cons]
              have := escape_list_length s.data
              omega
            rw [psb_round s.data rest _ hlen, Option.map_some']
        | arr l =>
            cases l with
            | nil =>
                simp [cost] at hc
                obtain ⟨g, rfl⟩ : ∃ g, fuel = g + 1 := ⟨fuel - 1, by omega⟩
                rw [show ser ind (JValue.arr []) = ['[', ']'] from by simp [ser]]
                rfl
            | cons v vs =>
                have hb : sizeOf v + sizeOf vs ≤ N := by simp at hv; omega
                simp [cost] at hc
                obtain ⟨g, rfl⟩ : ∃ g, fuel = g + 1 := ⟨fuel - 1, by omega⟩
                have hg : cost_arr v vs ≤ g := by omega
                have hser : ser ind (JValue.arr (v :: vs)) ++ rest
                    = '[' :: ('\n' :: (ser_arr_items (ind + 2) v vs ++
                        ('\n' :: (n_spaces ind ++ (']' :: rest))))) := by
                  simp [ser]
                rw [hser, pv_step_lbracket g _]
                obtain ⟨t, hdec⟩ := ser_arr_items_decomp (ind + 2) v vs
                obtain ⟨c0, t0, hct0, hws0, hne0, _⟩ := ser_shape (ind + 2) v
                have hsw : skip_ws ('\n' :: (ser_arr_items (ind + 2) v vs ++
                      ('\n' :: (n_spaces ind ++ (']' :: rest)))))
                    = c0 :: (t0 ++ (t ++ ('\n' :: (n_spaces ind ++ (']' :: rest))))) := by
                  rw [skip_ws_cons_ws _ (by decide), hdec, List.append_assoc,
                    skip_ws_append _ _ (n_spaces_all_ws _), List.append_assoc, hct0,
                    List.cons_append, skip_ws_cons_not_ws _ hws0]
                rw [hsw]
                show (if c0 = ']' then _ else _) = _
                rw [if_neg hne0]
                have hA := ihA v vs hb g (ind + 2) ['\n'] ('\n' :: n_spaces ind) rest hg
                  (by decide)
                  (by
                    intro x hx
                    rcases List.mem_cons.mp hx with rfl | hx2
                    · decide
                    · exact n_spaces_all_ws ind x hx2)
                simp only [List.cons_append, List.nil_append] at hA
                rw [hA, Option.map_some']
        | obj l =>
            cases l with
            | nil =>
                simp [cost] at hc
                obtain ⟨g, rfl⟩ : ∃ g, fuel = g + 1 := ⟨fuel - 1, by omega⟩
                rw [show ser ind (JValue.obj []) = [Char.ofNat 123, Char.ofNat 125] from by
                  simp [ser]]
                rfl
            | cons m ms =>
                have hb : sizeOf m + sizeOf ms ≤ N := by simp at hv; omega
                simp [cost] at hc
                obtain ⟨g, rfl⟩ : ∃ g, fuel = g + 1 := ⟨fuel - 1, by omega⟩
                have hg : cost_obj m ms ≤ g := by omega
                have hser : ser ind (JValue.obj (m :: ms)) ++ rest
                    = Char.ofNat 123 :: ('\n' :: (ser_obj_items (ind + 2) m ms ++
                        ('\n' :: (n_spaces ind ++ (Char.ofNat 125 :: rest))))) := by
                  simp [ser]
                rw [hser, pv_step_lbrace g _]
                obtain ⟨t, hdec⟩ := ser_obj_items_decomp (ind + 2) m ms
                have hsw : skip_ws ('\n' :: (ser_obj_items (ind + 2) m ms ++
                      ('\n' :: (n_spaces ind ++ (Char.ofNat 125 :: rest)))))
                    = '\"' :: (t ++ ('\n' :: (n_spaces ind ++ (Char.ofNat 125 :: rest)))) := by
                  rw [skip_ws_cons_ws _ (by decide), hdec, List.append_assoc,
                    skip_ws_append _ _ (n_spaces_all_ws _), List.cons_append,
                    skip_ws_cons_not_ws _ (by decide)]
                rw [hsw]
                show (if ('\"').toNat = 125 then _ else _) = _
                rw [if_neg (by decide)]
                have hO := ihO m ms hb g (ind + 2) ['\n'] ('\n' :: n_spaces ind) rest hg
                  (by decide)
                  (by
                    intro x hx
                    rcases List.mem_cons.mp hx with rfl | hx2
                    · decide
                    · exact n_spaces_all_ws ind x hx2)
                simp only [List.cons_append, List.nil_append] at hO
                rw [hO, Option.map_some']
      · intro v vs hsz
        unfold PArr
        intro fuel ind ws1 ws2 rest hc hws1 hws2
        cases vs with
        | nil =>
            have hb : sizeOf v ≤ N := by simp at hsz; omega
            simp [cost_arr] at hc
            obtain ⟨g, rfl⟩ : ∃ g, fuel = g + 1 := ⟨fuel - 1, by omega⟩
            have hcv : cost v ≤ g := by omega
            rw [show ser_arr_items ind v [] = n_spaces ind ++ ser ind v from by
              simp [ser_arr_items]]
            simp only [parse_arr_items]
            rw [List.append_assoc, parse_value_ws g ws1 _ hws1,
              parse_value_ws g (n_spaces ind) _ (n_spaces_all_ws ind),
              ihV v hb g ind (ws2 ++ (']' :: rest)) hcv (starts_digit_ws _ hws2 (by decide)),
              Option.some_bind]
            show (match skip_ws (ws2 ++ (']' :: rest)) with
                  | c :: rest2 =>
                    if c = ',' then (parse_arr_items g rest2).map fun q => (v :: q.1, q.2)
                    else if c = ']' then some ([v], rest2)
                    else none
                  | [] => none) = some ([v], rest)
            rw [skip_ws_append _ _ hws2, skip_ws_cons_not_ws _ (by decide)]
            show (if (']' : Char) = ',' then _ else _) = _
            rw [if_neg (by decide)]
            show (if (']' : Char) = ']' then _ else _) = _
            rw [if_pos rfl]
        | cons w ws =>
            have hbv : sizeOf v ≤ N := by simp at hsz; have := list_sizeOf_pos ws; omega
            have hbw : sizeOf w + sizeOf ws ≤ N := by
              simp at hsz
              have := jv_sizeOf_pos v
              omega
            simp [cost_arr] at hc
            obtain ⟨g, rfl⟩ : ∃ g, fuel = g + 1 := ⟨fuel - 1, by omega⟩
            have hcv : cost v ≤ g := by omega
            have hcw : cost_arr w ws ≤ g := by omega
            rw [show ser_arr_items ind v (w :: ws)
                  = (n_spaces ind ++ ser ind v) ++ ',' :: '\n' :: ser_arr_items ind w ws from by
                simp [ser_arr_items]]
            simp only [parse_arr_items]
            simp only [List.append_assoc, List.cons_append]
            rw [parse_value_ws g ws1 _ hws1,
              parse_value_ws g (n_spaces ind) _ (n_spaces_all_ws ind),
              ihV v hbv g ind
                (',' :: ('\n' :: (ser_arr_items ind w ws ++ (ws2 ++ (']' :: rest)))))
                hcv rfl,
              Option.some_bind]
            show (match skip_ws (',' :: ('\n' :: (ser_arr_items ind w ws ++
                    (ws2 ++ (']' :: rest))))) with
                  | c :: rest2 =>
                    if c = ',' then (parse_arr_items g rest2).map fun q => (v :: q.1, q.2)
                    else if c = ']' then some ([v], rest2)
                    else none
                  | [] => none) = some (v :: w :: ws, rest)
            rw [skip_ws_cons_not_ws _ (by decide)]
            show (if (',' : Char) = ',' then _ else _) = _
            rw [if_pos rfl]
            have hA := ihA w ws hbw g ind ['\n'] ws2 rest hcw (by decide) hws2
            simp only [List.cons_append, List.nil_append] at hA
            rw [hA, Option.map_some']
      · intro m ms hsz
        obtain ⟨k, mv⟩ := m
        unfold PObj
        intro fuel ind ws1 ws2 rest hc hws1 hws2
        cases ms with
        | nil =>
            have hb : sizeOf mv ≤ N := by simp at hsz; omega
            simp [cost_obj] at hc
            obtain ⟨g, rfl⟩ : ∃ g, fuel = g + 1 := ⟨fuel - 1, by omega⟩
            have hcv : cost mv ≤ g := by omega
            have hin : ws1 ++ (ser_obj_items ind (k, mv) [] ++
                  (ws2 ++ (Char.ofNat 125 :: rest)))
                = ws1 ++ (n_spaces ind ++ ('\"' :: (escape_list k.data ++
                    ('\"' :: (':' :: (' ' :: (ser ind mv ++
                      (ws2 ++ (Char.ofNat 125 :: rest))))))))) := by
              simp [ser_obj_items, escape_string]
            rw [hin]
            simp only [parse_obj_items]
            rw [skip_ws_append _ _ hws1, skip_ws_append _ _ (n_spaces_all_ws ind),
              skip_ws_cons_not_ws _ (by decide)]
            show (if ('\"').toNat = 34 then _ else _) = _
            rw [if_pos (by decide)]
            have hlen : k.data.length + 1 ≤ (escape_list k.data ++
                ('\"' :: (':' :: (' ' :: (ser ind mv ++
                  (ws2 ++ (Char.ofNat 125 :: rest))))))).length := by
              rw [List.length_append]
              have := escape_list_length k.data
              have hk : k.length = k.data.length := rfl
              simp
              omega
            rw [psb_round k.data _ _ hlen, Option.some_bind]
            show (match skip_ws (':' :: (' ' :: (ser ind mv ++
                    (ws2 ++ (Char.ofNat 125 :: rest))))) with
                  | c2 :: rest2 =>
                    if c2 = ':' then
                      (parse_value g rest2).bind fun vp =>
                        match skip_ws vp.2 with
                        | c3 :: rest4 =>
                          if c3 = ',' then
                            (parse_obj_items g rest4).map fun q =>
                              ((String.mk k.data, vp.1) :: q.1, q.2)
                          else if c3.toNat = 125 then
                            some ([(String.mk k.data, vp.1)], rest4)
                          else none
                        | [] => none
                    else none
                  | [] => none) = some ([(k, mv)], rest)
            rw [skip_ws_cons_not_ws _ (by decide)]
            show (if (':' : Char) = ':' then _ else _) = _
            rw [if_pos rfl, parse_value_ws1 g ' ' _ (by decide),
              ihV mv hb g ind (ws2 ++ (Char.ofNat 125 :: rest)) hcv
                (starts_digit_ws _ hws2 (by decide)),
              Option.some_bind]
            show (match skip_ws (ws2 ++ (Char.ofNat 125 :: rest)) with
                  | c3 :: rest4 =>
                    if c3 = ',' then
                      (parse_obj_items g rest4).map fun q =>
                        ((String.mk k.data, mv) :: q.1, q.2)
                    else if c3.toNat = 125 then some ([(String.mk k.data, mv)], rest4)
                    else none
                  | [] => none) = some ([(k, mv)], rest)
            rw [skip_ws_append _ _ hws2, skip_ws_cons_not_ws _ (by decide)]
            show (if (Char.ofNat 125) = ',' then _ else _) = _
            rw [if_neg (by decide)]
            show (if (Char.ofNat 125).toNat = 125 then _ else _) = _
            rw [if_pos (by decide)]
        | cons m2 ms2 =>
            have hb : sizeOf mv ≤ N := by simp at hsz; omega
            have hb2 : sizeOf m2 + sizeOf ms2 ≤ N := by simp at hsz; omega
            simp [cost_obj] at hc
            obtain ⟨g, rfl⟩ : ∃ g, fuel = g + 1 := ⟨fuel - 1, by omega⟩
            have hcv : cost mv ≤ g := by omega
            have hc2 : cost_obj m2 ms2 ≤ g := by omega
            have hin : ws1 ++ (ser_obj_items ind (k, mv) (m2 :: ms2) ++
                  (ws2 ++ (Char.ofNat 125 :: rest)))
                = ws1 ++ (n_spaces ind ++ ('\"' :: (escape_list k.data ++
                    ('\"' :: (':' :: (' ' :: (ser ind mv ++
                      (',' :: ('\n' :: (ser_obj_items ind m2 ms2 ++
                        (ws2 ++ (Char.ofNat 125 :: rest)))))))))))) := by
              simp [ser_obj_items, escape_string]
            rw [hin]
            simp only [parse_obj_items]
            rw [skip_ws_append _ _ hws1, skip_ws_append _ _ (n_spaces_all_ws ind),
              skip_ws_cons_not_ws _ (by decide)]
            show (if ('\"').toNat = 34 then _ else _) = _
            rw [if_pos (by decide)]
            have hlen : k.data.length + 1 ≤ (escape_list k.data ++
                ('\"' :: (':' :: (' ' :: (ser ind mv ++
                  (',' :: ('\n' :: (ser_obj_items ind m2 ms2 ++
                    (ws2 ++ (Char.ofNat 125 :: rest)))))))))).length := by
              rw [List.length_append]
              have := escape_list_length k.data
              have hk : k.length = k.data.length := rfl
              simp
              omega
            rw [psb_round k.data _ _ hlen, Option.some_bind]
            show (match skip_ws (':' :: (' ' :: (ser ind mv ++
                    (',' :: ('\n' :: (ser_obj_items ind m2 ms2 ++
                      (ws2 ++ (Char.ofNat 125 :: rest)))))))) with
                  | c2 :: rest2 =>
                    if c2 = ':' then
                      (parse_value g rest2).bind fun vp =>
                        match skip_ws vp.2 with
                        | c3 :: rest4 =>
                          if c3 = ',' then
                            (parse_obj_items g rest4).map fun q =>
                              ((String.mk k.data, vp.1) :: q.1, q.2)
                          else if c3.toNat = 125 then
                            some ([(String.mk k.data, vp.1)], rest4)
                          else none
                        | [] => none
                    else none
                  | [] => none) = some ((k, mv) :: m2 :: ms2, rest)
            rw [skip_ws_cons_not_ws _ (by decide)]
            show (if (':' : Char) = ':' then _ else _) = _
            rw [if_pos rfl, parse_value_ws1 g ' ' _ (by decide),
              ihV mv hb g ind (',' :: ('\n' :: (ser_obj_items ind m2 ms2 ++
                  (ws2 ++ (Char.ofNat 125 :: rest))))) hcv rfl,
              Option.some_bind]
            show (match skip_ws (',' :: ('\n' :: (ser_obj_items ind m2 ms2 ++
                    (ws2 ++ (Char.ofNat 125 :: rest))))) with
                  | c3 :: rest4 =>
                    if c3 = ',' then
                      (parse_obj_items g rest4).map fun q =>
                        ((String.mk k.data, mv) :: q.1, q.2)
                    else if c3.toNat = 125 then some ([(String.mk k.data, mv)], rest4)
                    else none
                  | [] => none) = some ((k, mv) :: m2 :: ms2, rest)
            rw [skip_ws_cons_not_ws _ (by decide)]
            show (if (',' : Char) = ',' then _ else _) = _
            rw [if_pos rfl]
            have hO := ihO m2 ms2 hb2 g ind ['\n'] ws2 rest hc2 (by decide) hws2
            simp only [List.cons_append, List.nil_append] at hO
            rw [hO, Option.map_some']

theorem cost_le_ser : ∀ N : ℕ,
    (∀ v : JValue, sizeOf v ≤ N → ∀ ind, cost v ≤ (ser ind v).length) ∧
    (∀ (v : JValue) (vs : List JValue), sizeOf v + sizeOf vs ≤ N →
      ∀ ind, cost_arr v vs ≤ (ser_arr_items ind v vs).length + 1) ∧
    (∀ (m : String × JValue) (ms : List (String × JValue)), sizeOf m + sizeOf ms ≤ N →
      ∀ ind, cost_obj m ms ≤ (ser_obj_items ind m ms).length + 1) := by
  intro N
  induction N with
  | zero =>
      refine ⟨fun v hv => ?_, fun v vs hv => ?_, fun m ms hm => ?_⟩
      · exact absurd hv (by have := jv_sizeOf_pos v; omega)
      · exact absurd hv (by have := jv_sizeOf_pos v; have := list_sizeOf_pos vs; omega)
      · exact absurd hm (by have := list_sizeOf_pos ms; omega)
  | succ N ihN =>
      obtain ⟨ihV, ihA, ihO⟩ := ihN
      refine ⟨?_, ?_, ?_⟩
      · intro v hv ind
        cases v with
        | null => simp [cost, ser]
        | bool b => cases b <;> simp [cost, ser]
        | num n =>
            have hne : int_chars n ≠ [] := by
              unfold int_chars
              split
              · simp
              · exact nat_chars_ne_nil n.toNat
            have := List.length_pos.mpr hne
            simp [cost, ser]
            omega
        | str s =>
            simp [cost, ser, escape_string]
        | arr l =>
            cases l with
            | nil => simp [cost, ser]
            | cons v vs =>
                have hb : sizeOf v + sizeOf vs ≤ N := by simp at hv; omega
                have := ihA v vs hb (ind + 2)
                simp [cost, ser, n_spaces]
                omega
        | obj l =>
            cases l with
            | nil => simp [cost, ser]
            | cons m ms =>
                have hb : sizeOf m + sizeOf ms ≤ N := by simp at hv; omega
                have := ihO m ms hb (ind + 2)
                simp [cost, ser, n_spaces]
                omega
      · intro v vs hsz ind
        cases vs with
        | nil =>
            have hb : sizeOf v ≤ N := by simp at hsz; omega
            have := ihV v hb ind
            simp [cost_arr, ser_arr_items, n_spaces]
            omega
        | cons w ws =>
            have hbv : sizeOf v ≤ N := by simp at hsz; have := list_sizeOf_pos ws; omega
            have hbw : sizeOf w + sizeOf ws ≤ N := by
              simp at hsz
              have := jv_sizeOf_pos v
              omega
            have h1 := ihV v hbv ind
            have h2 := ihA w ws hbw ind
            simp [cost_arr, ser_arr_items, n_spaces]
            omega
      · intro m ms hsz ind
        cases ms with
        | nil =>
            have hb : sizeOf m.2 ≤ N := by
              obtain ⟨k, mv⟩ := m
              simp at hsz ⊢
              omega
            have := ihV m.2 hb ind
            simp [cost_obj, ser_obj_items, n_spaces, escape_string]
            omega
        | cons m2 ms2 =>
            have hb : sizeOf m.2 ≤ N := by
              obtain ⟨k, mv⟩ := m
              simp at hsz ⊢
              have := list_sizeOf_pos ms2
              omega
            have hb2 : sizeOf m2 + sizeOf ms2 ≤ N := by
              obtain ⟨k, mv⟩ := m
              simp at hsz
              omega
            have h1 := ihV m.2 hb ind
            have h2 := ihO m2 ms2 hb2 ind
            simp [cost_obj, ser_obj_items, n_spaces, escape_string]
            omega

theorem json_round_trip (v : JValue) : json_loads (json_dumps v) = some v := by
  unfold json_loads json_dumps
  have hP : PVal v := (round_trip_all (sizeOf v)).1 v le_rfl
  have hc : cost v ≤ (ser 0 v).length + 1 := by
    have := (cost_le_ser (sizeOf v)).1 v le_rfl 0
    omega
  have h := hP ((ser 0 v).length + 1) 0 [] hc rfl
  rw [List.append_nil] at h
  rw [show (String.mk (ser 0 v)).data = ser 0 v from rfl]
  rw [h]
  rfl

/-! ## Claims -/

/-- C1: for every call to `transcribe`, the multipart request is sent only
if the file has first passed every `AudioDetails`-based policy check
(existence, extension allow-list, size limit, minimum duration), i.e. only
if `_validate_audio_file` succeeded; whenever any policy check fails, the
trace records no network request. -/
theorem claim_C1 (cfg : Transcriber.Config) (f : AudioFileModel) (audio_path : String)
    (response_format : String) (language : Option String) (net : Transcriber.NetBehavior) :
    ((Transcriber.transcribe cfg f audio_path response_format language net).2.network_request ≠ none →
      Transcriber.validate_audio_file f audio_path = .ok ()) ∧
    (∀ e, Transcriber.validate_audio_file f audio_path = .error e →
      (Transcriber.transcribe cfg f audio_path response_format language net).2.network_request = none) := by
  unfold Transcriber.transcribe
  rcases hv : Transcriber.validate_audio_file f audio_path with e | u
  · refine ⟨fun h => absurd rfl h, fun e _ => rfl⟩
  · refine ⟨fun _ => rfl, fun e he => ?_⟩
    exact absurd he (by simp)

/-- C1 witness: with a valid file and a 200 response the request is sent,
and the validator indeed accepted the file. -/
theorem claim_C1_witness :
    Transcriber.validate_audio_file sampleFile "sample.mp3" = .ok () :=
  (claim_C1 sampleCfg sampleFile "sample.mp3" "verbose_json" none okNet).1 (by decide)

/-- C2: the code diverges from the claim.  `utils.validate_audio_file`
returns `AudioDetails` successfully for a file whose soundfile probe
reports a duration of 220/44100 seconds, below the 0.01 minimum, because
its minimum-duration comparison sits inside the branch reached only when
every probe has failed; the transcriber-side validator
(`_validate_audio_file`) enforces the minimum on the same file, as the
claim describes. -/
theorem claim_C2 :
    Utils.validate_audio_file shortProbeFile "short.mp3"
        MAX_FILE_SIZE_MB MIN_FILE_LENGTH_SECONDS none
      = .ok ⟨ratDiv 220 44100, 1, 44100, ratDiv 16000 (1024 * 1024)⟩ ∧
    ratDiv 220 44100 < MIN_FILE_LENGTH_SECONDS ∧
    Transcriber.validate_audio_file shortProbeFile "short.mp3"
      = .error (.fileTooShort MIN_FILE_LENGTH_SECONDS (ratDiv 220 44100)) := by
  refine ⟨by decide, by decide, by decide⟩

/-- C3 counterexample: on `zeroRateWavFile` every probing strategy fails
(soundfile and mutagen raise, and the wave duration division raises), yet
the inspector returns channels 2, not the claimed default channels 1: the
wave branch's channel assignment executed before its exception was
caught. -/
theorem claim_C3_counterexample :
    sf_probe zeroRateWavFile = none ∧
    mutagen_probe zeroRateWavFile = none ∧
    wave_probe zeroRateWavFile (str_lower zeroRateWavFile.raw_ext)
        ⟨0, 1, 0, ratDiv 2048 (1024 * 1024)⟩
      = .fellThrough ⟨0, 2, 0, ratDiv 2048 (1024 * 1024)⟩ ∧
    Transcriber.get_audio_details zeroRateWavFile "tone.wav"
      = .ok ⟨0, 2, 0, ratDiv 2048 (1024 * 1024)⟩ ∧
    Transcriber.get_audio_details zeroRateWavFile "tone.wav"
      ≠ .ok ⟨0, 1, 0, ratDiv 2048 (1024 * 1024)⟩ := by
  refine ⟨rfl, rfl, by decide, by decide, by decide⟩

/-- C3 amended: when the file exists, its extension is allowed, its size
is within the limit, and all three probing strategies fail (soundfile and
mutagen contribute nothing and the wave attempt does not return), the
inspector `_get_audio_details` returns, as a non-error outcome, details
with duration 0, sample rate 0 and the size from the filesystem; channels
is the default 1 — except when the wave reader opened the file and raised
only at the duration division (zero frame rate), in which case channels is
the wave-reported channel count left behind by the assignment that
preceded the exception. -/
theorem claim_C3_amended (f : AudioFileModel) (audio_path : String)
    (hex : f.path_exists = true)
    (hgood : str_lower f.raw_ext ∈ SUPPORTED_EXTENSIONS)
    (hsize : ¬ (ratDiv f.size_bytes (1024 * 1024) > MAX_FILE_SIZE_MB))
    (h1 : sf_probe f = none) (h2 : mutagen_probe f = none)
    (h3 : ∃ d, wave_probe f (str_lower f.raw_ext)
        ⟨0, 1, 0, ratDiv f.size_bytes (1024 * 1024)⟩ = .fellThrough d) :
    (∀ w, f.wav_file = some w → str_lower f.raw_ext = ".wav" → w.framerate = 0 →
      Transcriber.get_audio_details f audio_path
        = .ok ⟨0, w.nchannels, 0, ratDiv f.size_bytes (1024 * 1024)⟩) ∧
    ((str_lower f.raw_ext = ".wav" →
        f.wav_file.map WavData.framerate ≠ some 0) →
      Transcriber.get_audio_details f audio_path
        = .ok ⟨0, 1, 0, ratDiv f.size_bytes (1024 * 1024)⟩) := by
  have hsize' : ¬ MAX_FILE_SIZE_MB < ratDiv f.size_bytes 1048576 := by
    simpa using hsize
  constructor
  · intro w hw hwav hfr
    unfold Transcriber.get_audio_details probe_details wave_probe
    simp [hex, hgood, hsize', h1, h2, hwav, hw, hfr]
    decide
  · intro hcond
    obtain ⟨d0, h3⟩ := h3
    by_cases hwav : str_lower f.raw_ext = ".wav"
    · rcases hw : f.wav_file with _ | w
      · unfold Transcriber.get_audio_details probe_details wave_probe
        simp [hex, hgood, hsize', h1, h2, hwav, hw]
        decide
      · have hfr : w.framerate ≠ 0 := by
          intro hz
          exact hcond hwav (by rw [hw, Option.map_some', hz])
        unfold wave_probe at h3
        rw [if_pos hwav, hw] at h3
        simp [hfr] at h3
    · unfold Transcriber.get_audio_details probe_details wave_probe
      simp [hex, hgood, hsize', h1, h2, hwav]

/-- C3 amended witness: a file all of whose probes fail (mutagen yields an
object without audio info, wave is not attempted for an mp3) gets the
untouched default details. -/
theorem claim_C3_witness :
    Transcriber.get_audio_details deadProbeFile "dead.mp3"
      = .ok ⟨0, 1, 0, ratDiv 4096 (1024 * 1024)⟩ :=
  (claim_C3_amended deadProbeFile "dead.mp3" rfl (by decide) (by decide) rfl rfl
    ⟨⟨0, 1, 0, ratDiv 4096 (1024 * 1024)⟩, by decide⟩).2 (by decide)

/-- C4: an existing file with an allowed extension whose size exceeds the
25 MB limit is rejected with `FileTooLarge` carrying both the configured
limit and the computed size, in both implementations, and the rejection is
independent of every probe outcome (no duration probing is consulted). -/
theorem claim_C4 (f : AudioFileModel) (audio_path : String)
    (hex : f.path_exists = true)
    (hgood : str_lower f.raw_ext ∈ SUPPORTED_EXTENSIONS)
    (hsize : ratDiv f.size_bytes (1024 * 1024) > MAX_FILE_SIZE_MB) :
    Transcriber.get_audio_details f audio_path
      = .error (.fileTooLarge MAX_FILE_SIZE_MB (ratDiv f.size_bytes (1024 * 1024))) ∧
    Utils.validate_audio_file f audio_path MAX_FILE_SIZE_MB MIN_FILE_LENGTH_SECONDS none
      = .error (.fileTooLarge MAX_FILE_SIZE_MB (ratDiv f.size_bytes (1024 * 1024))) ∧
    ∀ sf mg wv,
      Transcriber.get_audio_details
          { f with sf_file := sf, mutagen_file := mg, wav_file := wv } audio_path
        = Transcriber.get_audio_details f audio_path := by
  have hsize' : MAX_FILE_SIZE_MB < ratDiv f.size_bytes 1048576 := by
    simpa using hsize
  refine ⟨?_, ?_, ?_⟩
  · unfold Transcriber.get_audio_details
    simp [hex, hgood, hsize']
  · unfold Utils.validate_audio_file
    simp [hex, hgood, hsize']
  · intro sf mg wv
    unfold Transcriber.get_audio_details
    simp [hex, hgood, hsize']

/-- C4 witness: a 30 MiB mp3 is rejected as 30 MB > 25 MB. -/
theorem claim_C4_witness :
    Transcriber.get_audio_details bigFile "big.mp3"
      = .error (.fileTooLarge MAX_FILE_SIZE_MB (ratDiv 31457280 (1024 * 1024))) :=
  (claim_C4 bigFile "big.mp3" rfl (by decide) (by decide)).1

/-- C5: an existing file whose lower-cased extension is outside the
allow-list is rejected with `UnsupportedExtension` by both
implementations, and `transcribe` performs no network call on it. -/
theorem claim_C5 (f : AudioFileModel) (audio_path : String)
    (hex : f.path_exists = true)
    (hbad : str_lower f.raw_ext ∉ SUPPORTED_EXTENSIONS) :
    Transcriber.get_audio_details f audio_path
      = .error (.unsupportedExtension (str_lower f.raw_ext)) ∧
    Utils.validate_audio_file f audio_path MAX_FILE_SIZE_MB MIN_FILE_LENGTH_SECONDS none
      = .error (.unsupportedExtension (str_lower f.raw_ext)) ∧
    ∀ cfg response_format language net,
      (Transcriber.transcribe cfg f audio_path response_format language net).2.network_request
        = none := by
  refine ⟨?_, ?_, ?_⟩
  · unfold Transcriber.get_audio_details
    simp [hex, hbad]
  · unfold Utils.validate_audio_file
    simp [hex, hbad]
  · intro cfg response_format language net
    unfold Transcriber.transcribe Transcriber.validate_audio_file
      Transcriber.get_audio_details
    simp [hex, hbad]

/-- C5 witness: an existing `.txt` file is rejected. -/
theorem claim_C5_witness :
    Transcriber.get_audio_details badExtFile "notes.txt"
      = .error (.unsupportedExtension (str_lower badExtFile.raw_ext)) :=
  (claim_C5 badExtFile "notes.txt" rfl (by decide)).1

/-- C6 counterexample: with a nonexistent file and response format
`"srt"`, `transcribe` fails with `FileNotFound`, not `UnsupportedFormat`,
because the file is validated before the format is checked; so the claim
as stated (every bad-format call fails with `UnsupportedFormat`) is
false. -/
theorem claim_C6_counterexample :
    (Transcriber.transcribe sampleCfg missingFile "missing.mp3" "srt" none okNet).1
      = .error (.fileNotFound "missing.mp3") ∧
    (Transcriber.transcribe sampleCfg missingFile "missing.mp3" "srt" none okNet).1
      ≠ .error (.unsupportedFormat "srt") := by
  have h : (Transcriber.transcribe sampleCfg missingFile "missing.mp3" "srt" none okNet).1
      = .error (.fileNotFound "missing.mp3") := rfl
  exact ⟨h, by rw [h]; simp⟩

/-- C6 amended: for every response format outside
{json, verbose_json, text}, `transcribe` attempts no network call, and
provided the file passes validation it fails with `UnsupportedFormat` (if
the file fails validation first, that validation error is raised
instead). -/
theorem claim_C6_amended (cfg : Transcriber.Config) (f : AudioFileModel)
    (audio_path : String) (response_format : String) (language : Option String)
    (net : Transcriber.NetBehavior)
    (hfmt : response_format ∉ SUPPORTED_FORMATS) :
    (Transcriber.transcribe cfg f audio_path response_format language net).2.network_request
        = none ∧
    (Transcriber.validate_audio_file f audio_path = .ok () →
      (Transcriber.transcribe cfg f audio_path response_format language net).1
        = .error (.unsupportedFormat response_format)) := by
  unfold Transcriber.transcribe
  rcases hv : Transcriber.validate_audio_file f audio_path with e | u
  · refine ⟨rfl, fun h => ?_⟩
    exact absurd h (by simp)
  · exact ⟨by simp [hfmt], fun _ => by simp [hfmt]⟩

/-- C6 amended witness: a valid file with format `"srt"` fails with
`UnsupportedFormat` (and, per the first conjunct, without a network
call). -/
theorem claim_C6_witness :
    (Transcriber.transcribe sampleCfg sampleFile "sample.mp3" "srt" none okNet).1
      = .error (.unsupportedFormat "srt") :=
  (claim_C6_amended sampleCfg sampleFile "sample.mp3" "srt" none okNet
    (by decide)).2 (by decide)

/-- C7: whenever `transcribe` opens the audio file for upload, the trace
records the handle as closed again, on every exit path (success, non-200
status, transport exception, body-parsing failure). -/
theorem claim_C7 (cfg : Transcriber.Config) (f : AudioFileModel) (audio_path : String)
    (response_format : String) (language : Option String) (net : Transcriber.NetBehavior)
    (hopen : (Transcriber.transcribe cfg f audio_path response_format language net).2.file_opened
      = true) :
    (Transcriber.transcribe cfg f audio_path response_format language net).2.file_closed
      = true := by
  unfold Transcriber.transcribe at hopen ⊢
  rcases hv : Transcriber.validate_audio_file f audio_path with e | u
  · rw [hv] at hopen
    simp at hopen
  · by_cases hf : response_format ∈ SUPPORTED_FORMATS
    · simp [hf]
    · rw [hv] at hopen
      simp [hf] at hopen

/-- C7 witness: a successful transcription opened and closed the file. -/
theorem claim_C7_witness :
    (Transcriber.transcribe sampleCfg sampleFile "sample.mp3" "verbose_json" none
        okNet).2.file_closed = true :=
  claim_C7 sampleCfg sampleFile "sample.mp3" "verbose_json" none okNet (by decide)

/-- C8: parsing the string produced by `export_transcription` with format
`json` (that is, `json.dumps(result, indent=2)`) reconstructs a document
equal to the original result: the serialize/parse round trip is the
identity on every modelled transcription-result document. -/
theorem claim_C8 (transcription : List (String × JValue)) :
    (Utils.export_transcription transcription "json" none).1
        = .ok (.str (json_dumps (.obj transcription))) ∧
    json_loads (json_dumps (.obj transcription)) = some (.obj transcription) :=
  ⟨rfl, json_round_trip (.obj transcription)⟩

/-- C9: `export_transcription` with format `text` returns exactly the
value of the result's `text` field when present, and the empty string when
absent, whether or not an output path is supplied. -/
theorem claim_C9 (transcription : List (String × JValue)) (output_path : Option String) :
    (∀ v, transcription.lookup "text" = some v →
      (Utils.export_transcription transcription "text" output_path).1 = .ok v) ∧
    (transcription.lookup "text" = none →
      (Utils.export_transcription transcription "text" output_path).1 = .ok (.str "")) := by
  constructor
  · intro v hv
    unfold Utils.export_transcription
    cases output_path <;> simp [hv]
  · intro hn
    unfold Utils.export_transcription
    cases output_path <;> simp [hn]

/-- C9 witness: with the field present its value is returned; with it
absent the empty string is returned. -/
theorem claim_C9_witness :
    (Utils.export_transcription [("text", .str "hello")] "text" none).1
      = .ok (.str "hello") :=
  (claim_C9 [("text", .str "hello")] none).1 (.str "hello") rfl

/-- C10: every output format outside {json, text} (including
`verbose_json`, `srt`, `vtt`) makes `export_transcription` fail with
`UnsupportedFormat`, and even when an output path is supplied nothing is
written: the error precedes any file write. -/
theorem claim_C10 (transcription : List (String × JValue)) (output_format : String)
    (output_path : Option String)
    (h1 : output_format ≠ "json") (h2 : output_format ≠ "text") :
    Utils.export_transcription transcription output_format output_path
      = (.error (.unsupportedFormat output_format), []) := by
  unfold Utils.export_transcription
  simp [h1, h2]

/-- C10 witness: format `"srt"` with an output path supplied errors with
nothing written. -/
theorem claim_C10_witness :
    Utils.export_transcription [("text", .str "hi")] "srt" (some "out.srt")
      = (.error (.unsupportedFormat "srt"), []) :=
  claim_C10 [("text", .str "hi")] "srt" (some "out.srt") (by decide) (by decide)

end GroqTranscribe
